import Mathlib

/-!
Shallow embedding of the mcp-virtual-fs core: the pure path utilities
(src/paths.ts), the storage backend semantics (src/storage/postgres.ts,
modelled as an association list of nodes keyed by namespace and path),
and the virtual-filesystem semantics layer (src/vfs.ts).
-/

set_option maxHeartbeats 1000000
set_option maxRecDepth 10000

deriving instance DecidableEq for Except

namespace VfsModel

/-- Split a character list at every slash, mirroring the JavaScript
string method split with separator "/": the result is the list of
(possibly empty) pieces between slashes. -/
def splitSlashCore : List Char → List (List Char)
  | [] => [[]]
  | c :: rest =>
    if c = '/' then [] :: splitSlashCore rest
    else
      match splitSlashCore rest with
      | [] => [[c]]
      | s :: ss => (c :: s) :: ss

/-- Join pieces with a slash between consecutive pieces, mirroring the
JavaScript array method join with separator "/". -/
def joinSlashCore : List (List Char) → List Char
  | [] => []
  | [a] => a
  | a :: b :: rest => a ++ '/' :: joinSlashCore (b :: rest)

/-- String-level split on "/" (JavaScript p.split("/")). -/
def stringSplitSlash (s : String) : List String :=
  (splitSlashCore s.data).map (fun l => String.mk l)

/-- String-level join with "/" (JavaScript resolved.join("/")). -/
def joinSlash (l : List String) : String :=
  String.mk (joinSlashCore (l.map String.data))

/-- JavaScript startsWith, modelled as a character-list prefix test. -/
def strStartsWith (s pfx : String) : Bool :=
  pfx.data.isPrefixOf s.data

/-- One step of the segment-resolution loop in normalizePath: skip empty
and dot segments, pop on a dot-dot segment, push anything else. -/
def normStep (acc : List String) (seg : String) : List String :=
  if seg = "" ∨ seg = "." then acc
  else if seg = ".." then acc.dropLast
  else acc ++ [seg]

/-- normalizePath from src/paths.ts: resolve dot and dot-dot segments,
ensure a leading slash, strip trailing slashes. -/
def normalizePath (input : String) : String :=
  if input = "" then "/"
  else
    let p := if strStartsWith input "/" then input else "/" ++ input
    let segments := stringSplitSlash p
    let resolved := segments.foldl normStep []
    "/" ++ joinSlash resolved

/-- Index of the last occurrence of a character in a list, if any
(JavaScript lastIndexOf). -/
def lastIdx (c : Char) : List Char → Option Nat
  | [] => none
  | a :: rest =>
    match lastIdx c rest with
    | some i => some (i + 1)
    | none => if a = c then some 0 else none

/-- parentPath from src/paths.ts. -/
def parentPath (p : String) : String :=
  let n := normalizePath p
  if n = "/" then "/"
  else
    match lastIdx '/' n.data with
    | none => String.mk n.data.dropLast
    | some i => if i = 0 then "/" else String.mk (n.data.take i)

/-- basename from src/paths.ts. -/
def basename (p : String) : String :=
  let n := normalizePath p
  if n = "/" then "/"
  else
    match lastIdx '/' n.data with
    | none => n
    | some i => String.mk (n.data.drop (i + 1))

/-- ancestorPaths from src/paths.ts: all proper ancestors of a path,
from the root downwards. -/
def ancestorPaths (p : String) : List String :=
  let n := normalizePath p
  if n = "/" then []
  else
    let segments := (stringSplitSlash n).filter (fun s => s ≠ "")
    "/" :: (List.range (segments.length - 1)).map
      (fun i => "/" ++ joinSlash (segments.take (i + 1)))

/-- validatePath from src/paths.ts: length bound, null-byte check and
control-character check on the raw input; returns the normalized path.
The error value carries the thrown PathError message. -/
def validatePath (input : String) : Except String String :=
  if 4096 < input.data.length then
    .error "Path exceeds maximum length of 4096"
  else if input.data.contains (Char.ofNat 0) then
    .error "Path must not contain null bytes"
  else
    let normalized := normalizePath input
    if input.data.any (fun c => c.toNat ≤ 31) then
      .error "Path must not contain control characters"
    else
      .ok normalized

/-- Segment depth of a path: the number of nonempty slash-separated
segments (the quantity the spec's depth-50 policy speaks about). -/
def segDepth (p : String) : Nat :=
  ((stringSplitSlash p).filter (fun s => s ≠ "")).length

/-- SQL LIKE pattern matching as PostgreSQL evaluates it: the percent
sign matches any run of characters, the underscore matches exactly one
character, every other pattern character matches itself. The storage
queries build their patterns by raw concatenation (for example
path LIKE src || '/%'), so metacharacters inside stored paths are
interpreted, exactly as in the SQL. This helper tries a continuation on
every suffix of the string, giving the percent semantics. -/
def anySuffix (f : List Char → Bool) : List Char → Bool
  | [] => f []
  | c :: t => f (c :: t) || anySuffix f t

/-- Matching of one LIKE pattern, by recursion on the pattern; the
percent case tries the rest of the pattern on every suffix. -/
def likeMatch : (pat : List Char) → (s : List Char) → Bool
  | [], s => s.isEmpty
  | c :: ps, s =>
    if c = '%' then anySuffix (likeMatch ps) s
    else if c = '_' then
      match s with
      | [] => false
      | _ :: t => likeMatch ps t
    else
      match s with
      | [] => false
      | d :: t => d = c && likeMatch ps t

/-- File or directory discriminator (the node_type column). -/
inductive NodeType where
  | file
  | dir
  deriving DecidableEq, Repr

/-- One row of the vfs_nodes table: namespace id (session_id column),
materialized path, node type, nullable content. -/
structure Entry where
  ns : String
  path : String
  nodeType : NodeType
  content : Option String
  deriving DecidableEq, Repr

/-- The vfs_nodes table as an ordered list of rows. The (ns, path) key
is unique in every store reachable through the operations below. -/
abbrev Store := List Entry

/-- getNode: exact-key lookup (SELECT ... WHERE session_id = ns AND
path = p). -/
def getNode (ns p : String) : Store → Option (NodeType × Option String)
  | [] => none
  | e :: rest =>
    if e.ns = ns ∧ e.path = p then some (e.nodeType, e.content)
    else getNode ns p rest

/-- upsertFile: INSERT a file row, ON CONFLICT update only the content
column (the node_type column of an existing row is left unchanged). -/
def upsertFile (ns p c : String) : Store → Store
  | [] => [⟨ns, p, .file, some c⟩]
  | e :: rest =>
    if e.ns = ns ∧ e.path = p then { e with content := some c } :: rest
    else e :: upsertFile ns p c rest

/-- appendFile: INSERT a file row, ON CONFLICT concatenate to the
existing content, treating null content as empty. -/
def appendFile (ns p c : String) : Store → Store
  | [] => [⟨ns, p, .file, some c⟩]
  | e :: rest =>
    if e.ns = ns ∧ e.path = p then
      { e with content := some ((e.content.getD "") ++ c) } :: rest
    else e :: appendFile ns p c rest

/-- insertDir: INSERT a directory row, ON CONFLICT DO NOTHING. -/
def insertDir (ns p : String) (s : Store) : Store :=
  if (getNode ns p s).isSome then s else s ++ [⟨ns, p, .dir, none⟩]

/-- Row predicate of deleteNode and moveNode: WHERE path = p OR path
LIKE p || '/%'. -/
def subtreePred (ns p : String) (e : Entry) : Bool :=
  decide (e.ns = ns) &&
    (decide (e.path = p) || likeMatch (p ++ "/%").data e.path.data)

/-- deleteNode: DELETE the matching rows, returning the row count. -/
def deleteNode (ns p : String) (s : Store) : Nat × Store :=
  ((s.filter (subtreePred ns p)).length,
   s.filter (fun e => !(subtreePred ns p e)))

/-- moveNode: UPDATE the matching rows, substituting the source prefix
(by character count) with the destination. -/
def moveNode (ns src dest : String) (s : Store) : Store :=
  s.map (fun e =>
    if subtreePred ns src e then
      { e with path := dest ++ String.mk (e.path.data.drop src.data.length) }
    else e)

/-- Row predicate of countChildren and listChildren: path LIKE
prefix || '%' AND path NOT LIKE prefix || '%/%' AND path != dirPath,
with prefix = dirPath + "/" except at the root. -/
def childPred (ns dirPath : String) (e : Entry) : Bool :=
  let pfx := if dirPath = "/" then "/" else dirPath ++ "/"
  decide (e.ns = ns) && likeMatch (pfx ++ "%").data e.path.data &&
    !(likeMatch (pfx ++ "%/%").data e.path.data) && decide (e.path ≠ dirPath)

/-- countChildren: COUNT of the matching rows. -/
def countChildren (ns dirPath : String) (s : Store) : Nat :=
  (s.filter (childPred ns dirPath)).length

/-- listChildren: the matching rows (path and node type). -/
def listChildren (ns dirPath : String) (s : Store) : List (String × NodeType) :=
  (s.filter (childPred ns dirPath)).map (fun e => (e.path, e.nodeType))

/-- Insertion of one element into a sorted list (helper of sortBy). -/
def insertBy (le : α → α → Bool) (a : α) : List α → List α
  | [] => [a]
  | b :: rest => if le a b then a :: b :: rest else b :: insertBy le a rest

/-- Insertion sort with an explicit comparison, standing in for the SQL
ORDER BY and for the JavaScript array sort with a comparator. -/
def sortBy (le : α → α → Bool) : List α → List α
  | [] => []
  | a :: rest => insertBy le a (sortBy le rest)

/-- allFilePaths: paths of the file rows of the namespace, ORDER BY
path. -/
def allFilePaths (ns : String) (s : Store) : List String :=
  sortBy (fun a b => decide (a ≤ b))
    ((s.filter (fun e => decide (e.ns = ns) && decide (e.nodeType = .file))).map
      (fun e => e.path))

/-- Paths of the file rows of a namespace in store order, without the
ORDER BY: the claim vocabulary for what glob may return. -/
def filesOf (ns : String) (s : Store) : List String :=
  (s.filter (fun e => decide (e.ns = ns) && decide (e.nodeType = .file))).map
    (fun e => e.path)

/-- Errors of the semantics layer: a thrown PathError (carrying its
message), or a VfsError with a POSIX-style code and a message. -/
inductive Err where
  | invalidPath (msg : String)
  | fs (code : String) (msg : String)
  deriving DecidableEq, Repr

/-- Namespace resolution (resolveNamespace): the explicit store name
when given, else the session id. -/
def resolveNs (sid : String) (stn : Option String) : String :=
  stn.getD sid

/-- Namespace provisioning effect on the node table: ensureSession and
ensureStore both insert the root directory idempotently. -/
def provisionNs (ns : String) (s : Store) : Store :=
  insertDir ns "/" s

/-- VirtualFS.ensureParents: insertDir on every ancestor of the path. -/
def ensureParents (ns p : String) (s : Store) : Store :=
  (ancestorPaths p).foldl (fun st a => insertDir ns a st) s

/-- VirtualFS.read. -/
def read (sid path : String) (stn : Option String) (s : Store) :
    Except Err String :=
  match validatePath path with
  | .error m => .error (.invalidPath m)
  | .ok p =>
    let ns := resolveNs sid stn
    let s1 := provisionNs ns s
    match getNode ns p s1 with
    | none => .error (.fs "ENOENT" ("No such file: " ++ p))
    | some (.dir, _) => .error (.fs "EISDIR" ("Is a directory: " ++ p))
    | some (.file, c) => .ok (c.getD "")

/-- VirtualFS.write: returns the created_parents flag and the new
store. -/
def write (sid path content : String) (stn : Option String) (s : Store) :
    Except Err (Bool × Store) :=
  match validatePath path with
  | .error m => .error (.invalidPath m)
  | .ok p =>
    if p = "/" then .error (.fs "EINVAL" "Cannot write to root directory")
    else
      let ns := resolveNs sid stn
      let s1 := provisionNs ns s
      match getNode ns p s1 with
      | some (.dir, _) => .error (.fs "EISDIR" ("Is a directory: " ++ p))
      | _ =>
        let createdParents := decide (1 < (ancestorPaths p).length)
        .ok (createdParents, upsertFile ns p content (ensureParents ns p s1))

/-- VirtualFS.append. -/
def append (sid path content : String) (stn : Option String) (s : Store) :
    Except Err Store :=
  match validatePath path with
  | .error m => .error (.invalidPath m)
  | .ok p =>
    if p = "/" then .error (.fs "EINVAL" "Cannot append to root directory")
    else
      let ns := resolveNs sid stn
      let s1 := provisionNs ns s
      match getNode ns p s1 with
      | some (.dir, _) => .error (.fs "EISDIR" ("Is a directory: " ++ p))
      | _ => .ok (appendFile ns p content (ensureParents ns p s1))

/-- Result of VirtualFS.stat: absent, a file with its size, or a
directory with its immediate-child count. -/
inductive StatResult where
  | absent
  | fileInfo (size : Nat)
  | dirInfo (children : Nat)
  deriving DecidableEq, Repr

/-- VirtualFS.stat. -/
def stat (sid path : String) (stn : Option String) (s : Store) :
    Except Err StatResult :=
  match validatePath path with
  | .error m => .error (.invalidPath m)
  | .ok p =>
    let ns := resolveNs sid stn
    let s1 := provisionNs ns s
    match getNode ns p s1 with
    | none => .ok .absent
    | some (.file, c) => .ok (.fileInfo (c.getD "").length)
    | some (.dir, _) => .ok (.dirInfo (countChildren ns p s1))

/-- One entry of a directory listing. -/
structure LsEntry where
  name : String
  type : NodeType
  deriving DecidableEq, Repr

/-- The listing comparator of VirtualFS.ls: directories before files,
alphabetical by name within a group. -/
def lsLe (a b : LsEntry) : Bool :=
  if a.type = b.type then decide (a.name ≤ b.name) else decide (a.type = .dir)

/-- VirtualFS.ls. -/
def ls (sid path : String) (stn : Option String) (s : Store) :
    Except Err (List LsEntry) :=
  match validatePath path with
  | .error m => .error (.invalidPath m)
  | .ok p =>
    let ns := resolveNs sid stn
    let s1 := provisionNs ns s
    match getNode ns p s1 with
    | none => .error (.fs "ENOENT" ("No such directory: " ++ p))
    | some (.file, _) => .error (.fs "ENOTDIR" ("Not a directory: " ++ p))
    | some (.dir, _) =>
      .ok (sortBy lsLe ((listChildren ns p s1).map
        (fun ch => ⟨basename ch.1, ch.2⟩)))

/-- VirtualFS.mkdir. -/
def mkdir (sid path : String) (stn : Option String) (s : Store) :
    Except Err (Bool × Store) :=
  match validatePath path with
  | .error m => .error (.invalidPath m)
  | .ok p =>
    if p = "/" then .ok (true, s)
    else
      let ns := resolveNs sid stn
      let s1 := provisionNs ns s
      match getNode ns p s1 with
      | some (.file, _) => .error (.fs "EEXIST" ("File exists at path: " ++ p))
      | none => .ok (false, insertDir ns p (ensureParents ns p s1))
      | some (.dir, _) => .ok (true, insertDir ns p (ensureParents ns p s1))

/-- VirtualFS.rm: returns the deleted-row count and the new store. -/
def rm (sid path : String) (stn : Option String) (s : Store) :
    Except Err (Nat × Store) :=
  match validatePath path with
  | .error m => .error (.invalidPath m)
  | .ok p =>
    if p = "/" then .error (.fs "EINVAL" "Cannot remove root directory")
    else
      let ns := resolveNs sid stn
      let s1 := provisionNs ns s
      match getNode ns p s1 with
      | none => .error (.fs "ENOENT" ("No such file or directory: " ++ p))
      | some _ => .ok (deleteNode ns p s1)

/-- VirtualFS.move. -/
def move (sid src dest : String) (stn : Option String) (s : Store) :
    Except Err Store :=
  match validatePath src with
  | .error m => .error (.invalidPath m)
  | .ok sp =>
    match validatePath dest with
    | .error m => .error (.invalidPath m)
    | .ok dp =>
      if sp = "/" then .error (.fs "EINVAL" "Cannot move root directory")
      else if dp = "/" then .error (.fs "EINVAL" "Cannot move to root directory")
      else if strStartsWith dp (sp ++ "/") then
        .error (.fs "EINVAL" "Cannot move a directory into itself")
      else
        let ns := resolveNs sid stn
        let s1 := provisionNs ns s
        match getNode ns sp s1 with
        | none => .error (.fs "ENOENT" ("No such file or directory: " ++ sp))
        | some _ =>
          match getNode ns dp s1 with
          | some _ => .error (.fs "EEXIST" ("Destination already exists: " ++ dp))
          | none =>
            let s2 := if parentPath dp ≠ "/" then ensureParents ns dp s1 else s1
            .ok (moveNode ns sp dp s2)

/-- VirtualFS.glob: the compiled picomatch matcher is passed in as a
function, since the pattern engine is an external library. Returns the
matching file paths and the store (changed only by namespace
provisioning). -/
def glob (sid : String) (isMatch : String → Bool) (stn : Option String)
    (s : Store) : Except Err (List String × Store) :=
  let ns := resolveNs sid stn
  let s1 := provisionNs ns s
  let allPaths := allFilePaths ns s1
  if 10000 < allPaths.length then
    .error (.fs "EINVAL"
      ("Too many files (" ++ toString allPaths.length ++
        ") to glob — maximum is 10000. Use grep with path_filter to narrow your search."))
  else .ok (allPaths.filter isMatch, s1)

/-- A path of n short distinct segments, as built by the depth tests of
the repository. -/
def dPath (n : Nat) : String :=
  "/" ++ joinSlash ((List.range n).map (fun i => "d" ++ toString i))

/-- A namespace holding a directory at /a_b (whose name contains the
SQL LIKE underscore metacharacter), a sibling directory /axb and a file
/axb/c; built by mkdir then write, see the setup conjuncts of the
theorems using it. -/
def bugStore : Store :=
  [⟨"s", "/", .dir, none⟩, ⟨"s", "/a_b", .dir, none⟩,
   ⟨"s", "/axb", .dir, none⟩, ⟨"s", "/axb/c", .file, some "x"⟩]

/-- Whether an optional lookup result is a directory node. -/
def isDirOpt : Option (NodeType × Option String) → Bool
  | some (.dir, _) => true
  | _ => false

example : likeMatch "/a_b/%".data "/axb/c".data = true := by decide
example : likeMatch "/a_b/%".data "/axb".data = false := by decide
example : likeMatch "/a_b/%/%".data "/axb/c".data = false := by decide
example : likeMatch "/a/%".data "/a/b/c".data = true := by decide
example : likeMatch "/a/%".data "/ab".data = false := by decide

example : normalizePath "/a/./b/../c//" = "/a/c" := by decide
example : normalizePath "" = "/" := by decide
example : normalizePath "a/b" = "/a/b" := by decide
example : parentPath "/a/b/c" = "/a/b" := by decide
example : parentPath "/a" = "/" := by decide
example : basename "/a/b/c.ts" = "c.ts" := by decide
example : ancestorPaths "/a/b/c" = ["/", "/a", "/a/b"] := by decide
example : ancestorPaths "/" = [] := by decide
example : validatePath "/a/b" = .ok "/a/b" := by decide
example : segDepth "/a/b/c" = 3 := by decide

/-! Lemmas about splitting and joining on slashes. -/

theorem splitSlashCore_ne_nil (l : List Char) : splitSlashCore l ≠ [] := by
  induction l with
  | nil => simp [splitSlashCore]
  | cons c rest ih =>
    simp only [splitSlashCore]
    split
    · simp
    · cases h : splitSlashCore rest <;> simp [h]

theorem mem_splitSlashCore_no_slash (l : List Char) :
    ∀ p ∈ splitSlashCore l, '/' ∉ p := by
  induction l with
  | nil =>
    intro p hp
    simp [splitSlashCore] at hp
    simp [hp]
  | cons c rest ih =>
    intro p hp
    simp only [splitSlashCore] at hp
    by_cases hc : c = '/'
    · rw [if_pos hc] at hp
      rcases List.mem_cons.mp hp with h | h
      · simp [h]
      · exact ih p h
    · rw [if_neg hc] at hp
      cases h : splitSlashCore rest with
      | nil => exact absurd h (splitSlashCore_ne_nil rest)
      | cons s ss =>
        rw [h] at hp
        rcases List.mem_cons.mp hp with h2 | h2
        · subst h2
          intro hmem
          rcases List.mem_cons.mp hmem with h3 | h3
          · exact hc h3.symm
          · exact ih s (by rw [h]; exact List.mem_cons_self s ss) h3
        · exact ih p (by rw [h]; exact List.mem_cons_of_mem s h2)

theorem joinSlashCore_splitSlashCore (l : List Char) :
    joinSlashCore (splitSlashCore l) = l := by
  induction l with
  | nil => rfl
  | cons c rest ih =>
    simp only [splitSlashCore]
    by_cases hc : c = '/'
    · rw [if_pos hc]
      cases h : splitSlashCore rest with
      | nil => exact absurd h (splitSlashCore_ne_nil rest)
      | cons s ss =>
        rw [h] at ih
        subst hc
        simp [joinSlashCore, ih]
    · rw [if_neg hc]
      cases h : splitSlashCore rest with
      | nil => exact absurd h (splitSlashCore_ne_nil rest)
      | cons s ss =>
        rw [h] at ih
        cases ss with
        | nil => simpa [joinSlashCore] using ih
        | cons s2 ss2 => simpa [joinSlashCore] using ih

theorem splitSlashCore_append (a : List Char) {r : List Char}
    (ha : '/' ∉ a) {s : List Char} {ss : List (List Char)}
    (h : splitSlashCore r = s :: ss) :
    splitSlashCore (a ++ r) = (a ++ s) :: ss := by
  induction a with
  | nil => simpa using h
  | cons c t ih =>
    have hc : ¬(c = '/') := fun e => ha (e ▸ List.mem_cons_self c t)
    have ht : '/' ∉ t := fun m => ha (List.mem_cons_of_mem c m)
    simp only [List.cons_append, splitSlashCore, List.append_eq]
    rw [if_neg hc, ih ht]

theorem splitSlashCore_join (pieces : List (List Char)) (hne : pieces ≠ [])
    (hall : ∀ p ∈ pieces, '/' ∉ p) :
    splitSlashCore (joinSlashCore pieces) = pieces := by
  induction pieces with
  | nil => exact absurd rfl hne
  | cons a rest ih =>
    have ha : '/' ∉ a := hall a (List.mem_cons_self a rest)
    cases rest with
    | nil =>
      have h0 : splitSlashCore ([] : List Char) = [] :: [] := rfl
      have h2 := splitSlashCore_append a ha h0
      simpa [joinSlashCore] using h2
    | cons b rest2 =>
      have hb : splitSlashCore (joinSlashCore (b :: rest2)) = b :: rest2 :=
        ih (by simp) (fun p hp => hall p (List.mem_cons_of_mem a hp))
      have hslash : splitSlashCore ('/' :: joinSlashCore (b :: rest2)) =
          [] :: b :: rest2 := by
        simp [splitSlashCore, hb]
      have h3 := splitSlashCore_append a ha hslash
      simpa [joinSlashCore] using h3

/-! Shape of normalized paths. -/

/-- A segment the normalization loop can leave in its accumulator:
nonempty, not a dot, not a dot-dot, slash-free. -/
def GoodSeg (x : String) : Prop :=
  x ≠ "" ∧ x ≠ "." ∧ x ≠ ".." ∧ '/' ∉ x.data

theorem foldl_normStep_append :
    ∀ l : List String, (∀ x ∈ l, x ≠ "" ∧ x ≠ "." ∧ x ≠ "..") →
    ∀ acc, List.foldl normStep acc l = acc ++ l := by
  intro l
  induction l with
  | nil => intro _ acc; simp
  | cons x l ih =>
    intro hl acc
    have hx := hl x (List.mem_cons_self x l)
    have hstep : normStep acc x = acc ++ [x] := by
      unfold normStep
      rw [if_neg (by simp [hx.1, hx.2.1]), if_neg hx.2.2]
    rw [List.foldl_cons, hstep,
      ih (fun y hy => hl y (List.mem_cons_of_mem x hy))]
    simp

theorem foldl_normStep_good :
    ∀ l : List String, (∀ x ∈ l, '/' ∉ x.data) →
    ∀ acc, (∀ x ∈ acc, GoodSeg x) →
      ∀ x ∈ List.foldl normStep acc l, GoodSeg x := by
  intro l
  induction l with
  | nil => intro _ acc hacc; simpa using hacc
  | cons seg l ih =>
    intro hl acc hacc x hx
    rw [List.foldl_cons] at hx
    refine ih (fun y hy => hl y (List.mem_cons_of_mem seg hy)) _ ?_ x hx
    intro y hy
    unfold normStep at hy
    by_cases h1 : seg = "" ∨ seg = "."
    · rw [if_pos h1] at hy
      exact hacc y hy
    · rw [if_neg h1] at hy
      by_cases h2 : seg = ".."
      · rw [if_pos h2] at hy
        exact hacc y (List.dropLast_subset acc hy)
      · rw [if_neg h2] at hy
        rcases List.mem_append.mp hy with h | h
        · exact hacc y h
        · have hys : y = seg := List.mem_singleton.mp h
          subst hys
          push_neg at h1
          exact ⟨h1.1, h1.2, h2, hl y (List.mem_cons_self y l)⟩

theorem normalizePath_shape (input : String) :
    ∃ segs : List String,
      normalizePath input = "/" ++ joinSlash segs ∧ ∀ x ∈ segs, GoodSeg x := by
  by_cases h : input = ""
  · refine ⟨[], ?_, by simp⟩
    subst h
    decide
  · unfold normalizePath
    rw [if_neg h]
    refine ⟨_, rfl, ?_⟩
    apply foldl_normStep_good
    · intro x hx
      unfold stringSplitSlash at hx
      rcases List.mem_map.mp hx with ⟨q, hq, rfl⟩
      exact mem_splitSlashCore_no_slash _ q hq
    · intro x hx
      exact absurd hx (List.not_mem_nil x)

@[simp]
theorem mk_data (x : String) : String.mk x.data = x := rfl

theorem data_slash_append (x : String) : ("/" ++ x).data = '/' :: x.data := by
  rw [String.data_append]
  rfl

theorem joinSlash_data (segs : List String) :
    (joinSlash segs).data = joinSlashCore (segs.map String.data) := rfl

theorem joinSlashCore_map_ne_nil (segs : List String) (hne : segs ≠ [])
    (h0 : ∀ x ∈ segs, x ≠ "") :
    joinSlashCore (segs.map String.data) ≠ [] := by
  cases segs with
  | nil => exact absurd rfl hne
  | cons a rest =>
    cases rest with
    | nil =>
      simp only [List.map, joinSlashCore]
      intro h
      exact h0 a (List.mem_cons_self a []) (String.ext h)
    | cons b rest2 =>
      simp only [List.map, joinSlashCore]
      intro h
      rcases List.append_eq_nil.mp h with ⟨_, h2⟩
      exact List.cons_ne_nil _ _ h2

theorem slash_join_ne_root (segs : List String) (hne : segs ≠ [])
    (h0 : ∀ x ∈ segs, x ≠ "") :
    "/" ++ joinSlash segs ≠ "/" := by
  intro h
  have hd := congrArg String.data h
  rw [data_slash_append] at hd
  have hj : (joinSlash segs).data = [] := by
    have : '/' :: (joinSlash segs).data = ['/'] := hd
    injection this
  rw [joinSlash_data] at hj
  exact joinSlashCore_map_ne_nil segs hne h0 hj

theorem slash_join_ne_empty (segs : List String) :
    "/" ++ joinSlash segs ≠ "" := by
  intro h
  have hd := congrArg String.data h
  rw [data_slash_append] at hd
  exact List.cons_ne_nil _ _ hd

theorem stringSplitSlash_slash_join (segs : List String) (hne : segs ≠ [])
    (hsf : ∀ x ∈ segs, '/' ∉ x.data) :
    stringSplitSlash ("/" ++ joinSlash segs) = "" :: segs := by
  unfold stringSplitSlash
  rw [data_slash_append, joinSlash_data]
  have hmap : splitSlashCore (joinSlashCore (segs.map String.data)) =
      segs.map String.data := by
    refine splitSlashCore_join _ (by simpa using hne) ?_
    intro p hp
    rcases List.mem_map.mp hp with ⟨x, hx, rfl⟩
    exact hsf x hx
  rw [show splitSlashCore ('/' :: joinSlashCore (segs.map String.data)) =
        [] :: splitSlashCore (joinSlashCore (segs.map String.data)) from by
      simp [splitSlashCore]]
  rw [hmap, List.map_cons, List.map_map,
    show ((fun l : List Char => String.mk l) ∘ String.data) = id from
      funext fun x => rfl,
    List.map_id]

theorem strStartsWith_slash (x : String) :
    strStartsWith ("/" ++ x) "/" = true := by
  unfold strStartsWith
  rw [data_slash_append]
  show List.isPrefixOf ['/'] ('/' :: x.data) = true
  simp [List.isPrefixOf]

theorem normalizePath_def (input : String) :
    normalizePath input =
      if input = "" then "/"
      else "/" ++ joinSlash
        ((stringSplitSlash
          (if strStartsWith input "/" then input else "/" ++ input)).foldl
            normStep []) := rfl

theorem normalizePath_slash_join (segs : List String)
    (hgood : ∀ x ∈ segs, GoodSeg x) :
    normalizePath ("/" ++ joinSlash segs) = "/" ++ joinSlash segs := by
  by_cases hne : segs = []
  · subst hne
    decide
  · have h0 : ∀ x ∈ segs, x ≠ "" := fun x hx => (hgood x hx).1
    have hsf : ∀ x ∈ segs, '/' ∉ x.data := fun x hx => (hgood x hx).2.2.2
    rw [normalizePath_def, if_neg (slash_join_ne_empty segs),
      if_pos (strStartsWith_slash (joinSlash segs)),
      stringSplitSlash_slash_join segs hne hsf, List.foldl_cons,
      show normStep [] "" = [] from by unfold normStep; rw [if_pos (Or.inl rfl)],
      foldl_normStep_append segs
        (fun x hx => ⟨(hgood x hx).1, (hgood x hx).2.1, (hgood x hx).2.2.1⟩) [],
      List.nil_append]

theorem normalizePath_idem (input : String) :
    normalizePath (normalizePath input) = normalizePath input := by
  rcases normalizePath_shape input with ⟨segs, h, hgood⟩
  rw [h]
  exact normalizePath_slash_join segs hgood

theorem validatePath_ok_norm {input p : String}
    (h : validatePath input = .ok p) : p = normalizePath input := by
  unfold validatePath at h
  split at h
  · exact absurd h (by simp)
  · split at h
    · exact absurd h (by simp)
    · split at h
      · exact absurd h (by simp)
      · injection h with h2
        exact h2.symm

theorem filter_ne_empty_cons (segs : List String)
    (h0 : ∀ x ∈ segs, x ≠ "") :
    (("" :: segs).filter (fun s => s ≠ "")) = segs := by
  rw [List.filter_cons]
  simp only [decide_eq_true_eq]
  rw [if_neg (by simp)]
  exact List.filter_eq_self.mpr (fun x hx => by simpa using h0 x hx)

theorem ancestorPaths_def (p : String) :
    ancestorPaths p =
      if normalizePath p = "/" then []
      else
        "/" :: (List.range
          ((((stringSplitSlash (normalizePath p)).filter
              (fun s => s ≠ "")).length) - 1)).map
          (fun i => "/" ++ joinSlash
            (((stringSplitSlash (normalizePath p)).filter
              (fun s => s ≠ "")).take (i + 1))) := rfl

theorem ancestorPaths_slash_join (segs : List String) (hne : segs ≠ [])
    (hgood : ∀ x ∈ segs, GoodSeg x) :
    ancestorPaths ("/" ++ joinSlash segs) =
      "/" :: (List.range (segs.length - 1)).map
        (fun i => "/" ++ joinSlash (segs.take (i + 1))) := by
  have h0 : ∀ x ∈ segs, x ≠ "" := fun x hx => (hgood x hx).1
  have hsf : ∀ x ∈ segs, '/' ∉ x.data := fun x hx => (hgood x hx).2.2.2
  rw [ancestorPaths_def, normalizePath_slash_join segs hgood,
    if_neg (slash_join_ne_root segs hne h0),
    stringSplitSlash_slash_join segs hne hsf, filter_ne_empty_cons segs h0]

theorem ancestorPaths_length (segs : List String) (hne : segs ≠ [])
    (hgood : ∀ x ∈ segs, GoodSeg x) :
    (ancestorPaths ("/" ++ joinSlash segs)).length = segs.length := by
  rw [ancestorPaths_slash_join segs hne hgood]
  have : 1 ≤ segs.length := by
    cases segs with
    | nil => exact absurd rfl hne
    | cons a rest => simp
  simp only [List.length_cons, List.length_map, List.length_range]
  omega

theorem segDepth_slash_join (segs : List String) (hne : segs ≠ [])
    (hgood : ∀ x ∈ segs, GoodSeg x) :
    segDepth ("/" ++ joinSlash segs) = segs.length := by
  have h0 : ∀ x ∈ segs, x ≠ "" := fun x hx => (hgood x hx).1
  have hsf : ∀ x ∈ segs, '/' ∉ x.data := fun x hx => (hgood x hx).2.2.2
  unfold segDepth
  rw [stringSplitSlash_slash_join segs hne hsf, filter_ne_empty_cons segs h0]

theorem slash_join_len_eq (segs1 segs2 : List String)
    (hne1 : segs1 ≠ []) (hne2 : segs2 ≠ [])
    (hsf1 : ∀ x ∈ segs1, '/' ∉ x.data) (hsf2 : ∀ x ∈ segs2, '/' ∉ x.data)
    (h : "/" ++ joinSlash segs1 = "/" ++ joinSlash segs2) :
    segs1.length = segs2.length := by
  have hsplit := congrArg stringSplitSlash h
  rw [stringSplitSlash_slash_join segs1 hne1 hsf1,
    stringSplitSlash_slash_join segs2 hne2 hsf2] at hsplit
  have : segs1 = segs2 := by injection hsplit
  rw [this]

theorem self_not_mem_ancestorPaths (segs : List String) (hne : segs ≠ [])
    (hgood : ∀ x ∈ segs, GoodSeg x) :
    ("/" ++ joinSlash segs) ∉ ancestorPaths ("/" ++ joinSlash segs) := by
  have h0 : ∀ x ∈ segs, x ≠ "" := fun x hx => (hgood x hx).1
  have hsf : ∀ x ∈ segs, '/' ∉ x.data := fun x hx => (hgood x hx).2.2.2
  rw [ancestorPaths_slash_join segs hne hgood]
  intro hmem
  rcases List.mem_cons.mp hmem with h | h
  · exact slash_join_ne_root segs hne h0 h
  · rcases List.mem_map.mp h with ⟨i, hi, hEq⟩
    rw [List.mem_range] at hi
    have htne : segs.take (i + 1) ≠ [] := by
      cases segs with
      | nil => exact absurd rfl hne
      | cons a rest => simp [List.take]
    have htsf : ∀ x ∈ segs.take (i + 1), '/' ∉ x.data :=
      fun x hx => hsf x (List.take_subset _ _ hx)
    have hlen := slash_join_len_eq segs (segs.take (i + 1)) hne htne hsf htsf
      hEq.symm
    rw [List.length_take] at hlen
    omega

/-! Lemmas about the store operations. -/

theorem getNode_nil (ns p : String) : getNode ns p [] = none := rfl

theorem getNode_cons (ns p : String) (e : Entry) (l : Store) :
    getNode ns p (e :: l) =
      if e.ns = ns ∧ e.path = p then some (e.nodeType, e.content)
      else getNode ns p l := rfl

theorem upsertFile_cons (ns p c : String) (e : Entry) (l : Store) :
    upsertFile ns p c (e :: l) =
      if e.ns = ns ∧ e.path = p then { e with content := some c } :: l
      else e :: upsertFile ns p c l := rfl

theorem appendFile_cons (ns p c : String) (e : Entry) (l : Store) :
    appendFile ns p c (e :: l) =
      if e.ns = ns ∧ e.path = p then
        { e with content := some ((e.content.getD "") ++ c) } :: l
      else e :: appendFile ns p c l := rfl

theorem getNode_append_of_some {ns p : String} {s : Store} {v} (t : Store)
    (h : getNode ns p s = some v) : getNode ns p (s ++ t) = some v := by
  induction s with
  | nil => simp [getNode] at h
  | cons e rest ih =>
    rw [getNode_cons] at h
    rw [List.cons_append, getNode_cons]
    split at h
    · rw [if_pos (by assumption)]
      exact h
    · rw [if_neg (by assumption)]
      exact ih h

theorem getNode_append_of_none {ns p : String} {s : Store} (t : Store)
    (h : getNode ns p s = none) : getNode ns p (s ++ t) = getNode ns p t := by
  induction s with
  | nil => simp
  | cons e rest ih =>
    rw [getNode_cons] at h
    rw [List.cons_append, getNode_cons]
    split at h
    · exact absurd h (by simp)
    · rw [if_neg (by assumption)]
      exact ih h

theorem getNode_insertDir_of_some {ns p : String} {s : Store} {v}
    (ns2 q : String) (h : getNode ns p s = some v) :
    getNode ns p (insertDir ns2 q s) = some v := by
  unfold insertDir
  split
  · exact h
  · exact getNode_append_of_some _ h

theorem getNode_insertDir_other {ns p ns2 q : String} (s : Store)
    (hne : ¬(ns = ns2 ∧ p = q)) :
    getNode ns p (insertDir ns2 q s) = getNode ns p s := by
  unfold insertDir
  split
  · rfl
  · cases h : getNode ns p s with
    | some v => exact getNode_append_of_some _ h
    | none =>
      rw [getNode_append_of_none _ h, getNode_cons,
        if_neg (fun h2 => hne ⟨h2.1.symm, h2.2.symm⟩), getNode_nil]

theorem getNode_insertDir_self (ns q : String) (s : Store) :
    getNode ns q (insertDir ns q s) =
      some ((getNode ns q s).getD (.dir, none)) := by
  unfold insertDir
  cases h : getNode ns q s with
  | some v =>
    rw [if_pos (by simp [h]), h]
    rfl
  | none =>
    rw [if_neg (by simp [h]), getNode_append_of_none _ h, getNode_cons,
      if_pos ⟨rfl, rfl⟩]
    rfl

theorem getNode_foldl_insertDir_of_some {ns p ns2 : String} {v}
    (l : List String) :
    ∀ s : Store, getNode ns p s = some v →
      getNode ns p (l.foldl (fun st a => insertDir ns2 a st) s) = some v := by
  induction l with
  | nil => intro s h; exact h
  | cons a l ih =>
    intro s h
    rw [List.foldl_cons]
    exact ih _ (getNode_insertDir_of_some ns2 a h)

theorem getNode_foldl_insertDir_other {ns p ns2 : String}
    (l : List String) (hne : ∀ a ∈ l, ¬(ns = ns2 ∧ p = a)) :
    ∀ s : Store,
      getNode ns p (l.foldl (fun st a => insertDir ns2 a st) s) =
        getNode ns p s := by
  induction l with
  | nil => intro s; rfl
  | cons a l ih =>
    intro s
    rw [List.foldl_cons,
      ih (fun b hb => hne b (List.mem_cons_of_mem a hb)) _,
      getNode_insertDir_other s (hne a (List.mem_cons_self a l))]

theorem getNode_ensureParents_of_some {ns p ns2 p0 : String} {s : Store} {v}
    (h : getNode ns p s = some v) :
    getNode ns p (ensureParents ns2 p0 s) = some v :=
  getNode_foldl_insertDir_of_some _ s h

theorem getNode_ensureParents_other {ns p ns2 p0 : String} (s : Store)
    (hne : ∀ a ∈ ancestorPaths p0, ¬(ns = ns2 ∧ p = a)) :
    getNode ns p (ensureParents ns2 p0 s) = getNode ns p s :=
  getNode_foldl_insertDir_other _ hne s

theorem getNode_upsertFile_self_of_none {ns p : String} {s : Store}
    (c : String) (h : getNode ns p s = none) :
    getNode ns p (upsertFile ns p c s) = some (.file, some c) := by
  induction s with
  | nil =>
    show getNode ns p [⟨ns, p, .file, some c⟩] = some (.file, some c)
    rw [getNode_cons, if_pos ⟨rfl, rfl⟩]
  | cons e rest ih =>
    rw [getNode_cons] at h
    split at h
    · exact absurd h (by simp)
    · rw [upsertFile_cons, if_neg (by assumption), getNode_cons,
        if_neg (by assumption)]
      exact ih h

theorem getNode_upsertFile_self_of_some {ns p : String} {s : Store}
    {t : NodeType} {c0 : Option String} (c : String)
    (h : getNode ns p s = some (t, c0)) :
    getNode ns p (upsertFile ns p c s) = some (t, some c) := by
  induction s with
  | nil => simp [getNode] at h
  | cons e rest ih =>
    rw [getNode_cons] at h
    split at h
    · injection h with h2
      injection h2 with h3 h4
      subst h3
      rw [upsertFile_cons, if_pos (by assumption), getNode_cons,
        if_pos (by assumption)]
    · rw [upsertFile_cons, if_neg (by assumption), getNode_cons,
        if_neg (by assumption)]
      exact ih h

theorem getNode_upsertFile_other {ns2 q ns p : String} (c : String)
    (s : Store) (hne : ¬(ns2 = ns ∧ q = p)) :
    getNode ns2 q (upsertFile ns p c s) = getNode ns2 q s := by
  induction s with
  | nil =>
    show getNode ns2 q [⟨ns, p, .file, some c⟩] = none
    rw [getNode_cons, if_neg (fun h2 => hne ⟨h2.1.symm, h2.2.symm⟩), getNode_nil]
  | cons e rest ih =>
    rw [upsertFile_cons]
    split
    · rename_i hm
      rw [getNode_cons, getNode_cons]
      have hcond : ¬(e.ns = ns2 ∧ e.path = q) := by
        intro h2
        exact hne ⟨by rw [← h2.1, hm.1], by rw [← h2.2, hm.2]⟩
      rw [if_neg hcond, if_neg hcond]
    · rw [getNode_cons, getNode_cons]
      split
      · rfl
      · exact ih

theorem getNode_appendFile_self_of_none {ns p : String} {s : Store}
    (c : String) (h : getNode ns p s = none) :
    getNode ns p (appendFile ns p c s) = some (.file, some c) := by
  induction s with
  | nil =>
    show getNode ns p [⟨ns, p, .file, some c⟩] = some (.file, some c)
    rw [getNode_cons, if_pos ⟨rfl, rfl⟩]
  | cons e rest ih =>
    rw [getNode_cons] at h
    split at h
    · exact absurd h (by simp)
    · rw [appendFile_cons, if_neg (by assumption), getNode_cons,
        if_neg (by assumption)]
      exact ih h

theorem getNode_appendFile_self_of_some {ns p : String} {s : Store}
    {t : NodeType} {c0 : Option String} (c : String)
    (h : getNode ns p s = some (t, c0)) :
    getNode ns p (appendFile ns p c s) =
      some (t, some ((c0.getD "") ++ c)) := by
  induction s with
  | nil => simp [getNode] at h
  | cons e rest ih =>
    rw [getNode_cons] at h
    split at h
    · injection h with h2
      injection h2 with h3 h4
      subst h3
      subst h4
      rw [appendFile_cons, if_pos (by assumption), getNode_cons,
        if_pos (by assumption)]
    · rw [appendFile_cons, if_neg (by assumption), getNode_cons,
        if_neg (by assumption)]
      exact ih h

theorem getNode_appendFile_other {ns2 q ns p : String} (c : String)
    (s : Store) (hne : ¬(ns2 = ns ∧ q = p)) :
    getNode ns2 q (appendFile ns p c s) = getNode ns2 q s := by
  induction s with
  | nil =>
    show getNode ns2 q [⟨ns, p, .file, some c⟩] = none
    rw [getNode_cons, if_neg (fun h2 => hne ⟨h2.1.symm, h2.2.symm⟩), getNode_nil]
  | cons e rest ih =>
    rw [appendFile_cons]
    split
    · rename_i hm
      rw [getNode_cons, getNode_cons]
      have hcond : ¬(e.ns = ns2 ∧ e.path = q) := by
        intro h2
        exact hne ⟨by rw [← h2.1, hm.1], by rw [← h2.2, hm.2]⟩
      rw [if_neg hcond, if_neg hcond]
    · rw [getNode_cons, getNode_cons]
      split
      · rfl
      · exact ih

/-! Bridging lemmas about validated paths. -/

theorem validatePath_ok_shape {input p : String}
    (hv : validatePath input = .ok p) :
    ∃ segs : List String,
      p = "/" ++ joinSlash segs ∧ ∀ x ∈ segs, GoodSeg x := by
  rcases normalizePath_shape input with ⟨segs, hshape, hgood⟩
  exact ⟨segs, (validatePath_ok_norm hv).trans hshape, hgood⟩

theorem validated_not_mem_ancestors {input p : String}
    (hv : validatePath input = .ok p) (hp : p ≠ "/") :
    p ∉ ancestorPaths p := by
  rcases validatePath_ok_shape hv with ⟨segs, hps, hgood⟩
  have hne : segs ≠ [] := by
    intro h
    subst h
    apply hp
    rw [hps]
    decide
  rw [hps]
  exact self_not_mem_ancestorPaths segs hne hgood

theorem validated_ancestors_length {input p : String}
    (hv : validatePath input = .ok p) :
    (ancestorPaths p).length = segDepth p := by
  rcases validatePath_ok_shape hv with ⟨segs, hps, hgood⟩
  by_cases hne : segs = []
  · subst hne
    rw [hps]
    decide
  · rw [hps, ancestorPaths_length segs hne hgood,
      segDepth_slash_join segs hne hgood]

theorem resolveNs_none (sid : String) : resolveNs sid none = sid := rfl

/-- What a successful write implies: the target is not the root, the
created_parents flag is the ancestor-count test, the result store is
the upsert after ancestor creation over the provisioned store, and the
target now holds a file with the written content. -/
theorem write_ok_spec {sid path content : String} {stn : Option String}
    {s : Store} {p : String} {b : Bool} {s2 : Store}
    (hv : validatePath path = .ok p)
    (hw : write sid path content stn s = .ok (b, s2)) :
    p ≠ "/" ∧
    b = decide (1 < (ancestorPaths p).length) ∧
    s2 = upsertFile (resolveNs sid stn) p content
          (ensureParents (resolveNs sid stn) p
            (provisionNs (resolveNs sid stn) s)) ∧
    getNode (resolveNs sid stn) p s2 = some (.file, some content) := by
  unfold write at hw
  simp only [hv] at hw
  have hp : p ≠ "/" := by
    intro h
    rw [if_pos h] at hw
    exact Except.noConfusion hw
  rw [if_neg hp] at hw
  have hanc : ∀ a ∈ ancestorPaths p, ¬(resolveNs sid stn = resolveNs sid stn ∧ p = a) := by
    intro a ha hc
    exact validated_not_mem_ancestors hv hp (hc.2 ▸ ha)
  cases hg : getNode (resolveNs sid stn) p (provisionNs (resolveNs sid stn) s) with
  | none =>
    rw [hg] at hw
    simp only [] at hw
    injection hw with hw2
    injection hw2 with hb hs
    refine ⟨hp, hb.symm, hs.symm, ?_⟩
    rw [hs.symm]
    exact getNode_upsertFile_self_of_none content
      (by rw [getNode_ensureParents_other _ hanc]; exact hg)
  | some v =>
    rcases v with ⟨t, c0⟩
    cases t with
    | dir =>
      rw [hg] at hw
      simp only [] at hw
      exact Except.noConfusion hw
    | file =>
      rw [hg] at hw
      simp only [] at hw
      injection hw with hw2
      injection hw2 with hb hs
      refine ⟨hp, hb.symm, hs.symm, ?_⟩
      rw [hs.symm]
      exact getNode_upsertFile_self_of_some content
        (getNode_ensureParents_of_some hg)

theorem subtreePred_ns {ns p : String} {e : Entry}
    (h : subtreePred ns p e = true) : e.ns = ns := by
  unfold subtreePred at h
  rw [Bool.and_eq_true] at h
  exact of_decide_eq_true h.1

theorem getNode_deleteNode_other {ns2 q ns p : String} (s : Store)
    (hne : ns2 ≠ ns) :
    getNode ns2 q (deleteNode ns p s).2 = getNode ns2 q s := by
  show getNode ns2 q (s.filter (fun e => !(subtreePred ns p e))) =
    getNode ns2 q s
  induction s with
  | nil => rfl
  | cons e rest ih =>
    simp only [List.filter_cons]
    cases hp : subtreePred ns p e with
    | true =>
      rw [if_neg (by simp [hp])]
      rw [getNode_cons, if_neg (fun hc => hne ((subtreePred_ns hp) ▸ hc.1).symm)]
      exact ih
    | false =>
      rw [if_pos (by simp [hp]), getNode_cons, getNode_cons]
      split
      · rfl
      · exact ih

theorem getNode_moveNode_other {ns2 q ns src dest : String} (s : Store)
    (hne : ns2 ≠ ns) :
    getNode ns2 q (moveNode ns src dest s) = getNode ns2 q s := by
  unfold moveNode
  induction s with
  | nil => rfl
  | cons e rest ih =>
    simp only [List.map_cons]
    cases hp : subtreePred ns src e with
    | true =>
      rw [if_pos rfl, getNode_cons, getNode_cons]
      have hens : e.ns ≠ ns2 := fun hc => hne ((subtreePred_ns hp) ▸ hc).symm
      rw [if_neg (fun hc => hens hc.1), if_neg (fun hc => hens hc.1)]
      exact ih
    | false =>
      rw [if_neg (by simp), getNode_cons, getNode_cons]
      split
      · rfl
      · exact ih

theorem insertBy_perm (le : α → α → Bool) (a : α) (l : List α) :
    (insertBy le a l).Perm (a :: l) := by
  induction l with
  | nil => exact List.Perm.refl _
  | cons b rest ih =>
    unfold insertBy
    split
    · exact List.Perm.refl _
    · exact (ih.cons b).trans (List.Perm.swap a b rest)

theorem sortBy_perm (le : α → α → Bool) (l : List α) :
    (sortBy le l).Perm l := by
  induction l with
  | nil => exact List.Perm.refl _
  | cons a rest ih =>
    unfold sortBy
    exact (insertBy_perm le a (sortBy le rest)).trans (ih.cons a)

theorem allFilePaths_eq (ns : String) (s : Store) :
    allFilePaths ns s = sortBy (fun a b => decide (a ≤ b)) (filesOf ns s) := rfl

theorem filesOf_provision (ns : String) (s : Store) :
    filesOf ns (provisionNs ns s) = filesOf ns s := by
  unfold provisionNs insertDir
  split
  · rfl
  · unfold filesOf
    rw [List.filter_append, List.map_append]
    simp

theorem allFilePaths_provision_perm (ns : String) (s : Store) :
    (allFilePaths ns (provisionNs ns s)).Perm (filesOf ns s) := by
  rw [allFilePaths_eq, filesOf_provision]
  exact sortBy_perm _ _

/-! The claims. -/

/-- Claim C1: the claim states that validatePath enforces a maximum
segment depth of 50 (depth 50 accepted, depth 51 rejected with an error
citing depth), on top of the length, null-byte and control-character
checks. The code has no depth check at all: a 51-segment path is
accepted and returned normalized, although the repository's own path
test suite asserts that it must throw a PathError mentioning depth.
This theorem evaluates validatePath at the failing input: both the
depth-50 and the depth-51 path are accepted. -/
theorem claim_C1_validatePath_no_depth_limit :
    validatePath (dPath 50) = .ok (dPath 50) ∧
    validatePath (dPath 51) = .ok (dPath 51) ∧
    segDepth (dPath 50) = 50 ∧
    segDepth (dPath 51) = 51 := by
  refine ⟨by decide, by decide, by decide, by decide⟩

/-- Claim C4: the error guards of move hold, but the final clause of
the claim — only the source node and its descendants are renamed — is
false: the rename query matches rows with the SQL LIKE pattern src +
slash-percent, in which an underscore in the source path matches any
character. Moving /a_b (which has no descendants) to /q also relocates
the unrelated file /axb/c to /q/c. The first conjunct shows the store
arises from mkdir and write; the last shows /axb/c is not a descendant
of /a_b. -/
theorem claim_C4_move_relocates_nondescendant :
    (mkdir "s" "/a_b" none []).bind
      (fun r => write "s" "/axb/c" "x" none r.2) = .ok (true, bugStore) ∧
    move "s" "/a_b" "/q" none bugStore =
      .ok [⟨"s", "/", .dir, none⟩, ⟨"s", "/q", .dir, none⟩,
           ⟨"s", "/axb", .dir, none⟩, ⟨"s", "/q/c", .file, some "x"⟩] ∧
    read "s" "/axb/c" none
        [⟨"s", "/", .dir, none⟩, ⟨"s", "/q", .dir, none⟩,
         ⟨"s", "/axb", .dir, none⟩, ⟨"s", "/q/c", .file, some "x"⟩] =
      .error (.fs "ENOENT" "No such file: /axb/c") ∧
    read "s" "/q/c" none
        [⟨"s", "/", .dir, none⟩, ⟨"s", "/q", .dir, none⟩,
         ⟨"s", "/axb", .dir, none⟩, ⟨"s", "/q/c", .file, some "x"⟩] =
      .ok "x" ∧
    strStartsWith "/axb/c" ("/a_b" ++ "/") = false := by
  refine ⟨by decide, by decide, by decide, by decide, by decide⟩

/-- Claim C5: the root and not-found guards of remove hold, but the
deletion query deletes every row matching the SQL LIKE pattern p +
slash-percent, not only the node and its strict descendants: removing
/a_b (no descendants, so the claim says exactly one node goes) deletes
2 nodes, including the unrelated file /axb/c. -/
theorem claim_C5_rm_deletes_nondescendant :
    (mkdir "s" "/a_b" none []).bind
      (fun r => write "s" "/axb/c" "x" none r.2) = .ok (true, bugStore) ∧
    rm "s" "/a_b" none bugStore =
      .ok (2, [⟨"s", "/", .dir, none⟩, ⟨"s", "/axb", .dir, none⟩]) ∧
    (∀ e ∈ bugStore, strStartsWith e.path ("/a_b" ++ "/") = false) ∧
    read "s" "/axb/c" none [⟨"s", "/", .dir, none⟩, ⟨"s", "/axb", .dir, none⟩] =
      .error (.fs "ENOENT" "No such file: /axb/c") := by
  refine ⟨by decide, by decide, by decide, by decide⟩

/-- Claim C6: stat indeed never fails on a valid missing path and
reports file sizes, but the immediate-child count for a directory
counts every row matching the SQL LIKE child pattern: /a_b has no
children at all, yet stat reports one child, because /axb/c matches
the pattern with the underscore treated as a wildcard. -/
theorem claim_C6_stat_counts_nonchild :
    (mkdir "s" "/a_b" none []).bind
      (fun r => write "s" "/axb/c" "x" none r.2) = .ok (true, bugStore) ∧
    stat "s" "/a_b" none bugStore = .ok (.dirInfo 1) ∧
    (∀ e ∈ bugStore, strStartsWith e.path ("/a_b" ++ "/") = false) := by
  refine ⟨by decide, by decide, by decide⟩

/-- Claim C7: the not-found and not-a-directory guards of list hold,
but the listing is not exactly the immediate children: listing the
childless directory /a_b returns the entry c, the basename of the
unrelated file /axb/c matched by the SQL LIKE child pattern through
the underscore wildcard. -/
theorem claim_C7_ls_lists_nonchild :
    (mkdir "s" "/a_b" none []).bind
      (fun r => write "s" "/axb/c" "x" none r.2) = .ok (true, bugStore) ∧
    ls "s" "/a_b" none bugStore = .ok [⟨"c", .file⟩] ∧
    (∀ e ∈ bugStore, strStartsWith e.path ("/a_b" ++ "/") = false) := by
  refine ⟨by decide, by decide, by decide⟩

/-- Claim C2 counterexample: the claim says a second write to the same
multi-segment path (all ancestors now existing) returns created_parents
= false; the code returns true again, because the flag only tests the
length of the ancestor list of the path, never what existed. The first
two conjuncts trace both writes; the last two show every non-root
ancestor already existed before the second write. -/
theorem claim_C2_counterexample :
    write "s" "/deep/nested/file.txt" "c" none [] =
      .ok (true,
        [⟨"s", "/", .dir, none⟩, ⟨"s", "/deep", .dir, none⟩,
         ⟨"s", "/deep/nested", .dir, none⟩,
         ⟨"s", "/deep/nested/file.txt", .file, some "c"⟩]) ∧
    write "s" "/deep/nested/file.txt" "c2" none
        [⟨"s", "/", .dir, none⟩, ⟨"s", "/deep", .dir, none⟩,
         ⟨"s", "/deep/nested", .dir, none⟩,
         ⟨"s", "/deep/nested/file.txt", .file, some "c"⟩] =
      .ok (true,
        [⟨"s", "/", .dir, none⟩, ⟨"s", "/deep", .dir, none⟩,
         ⟨"s", "/deep/nested", .dir, none⟩,
         ⟨"s", "/deep/nested/file.txt", .file, some "c2"⟩]) ∧
    getNode "s" "/deep"
        [⟨"s", "/", .dir, none⟩, ⟨"s", "/deep", .dir, none⟩,
         ⟨"s", "/deep/nested", .dir, none⟩,
         ⟨"s", "/deep/nested/file.txt", .file, some "c"⟩] =
      some (.dir, none) ∧
    getNode "s" "/deep/nested"
        [⟨"s", "/", .dir, none⟩, ⟨"s", "/deep", .dir, none⟩,
         ⟨"s", "/deep/nested", .dir, none⟩,
         ⟨"s", "/deep/nested/file.txt", .file, some "c"⟩] =
      some (.dir, none) := by
  refine ⟨by decide, by decide, by decide, by decide⟩

/-- Claim C2 (amended): for every valid path, a successful write
returns created_parents = true exactly when the normalized target has
segment depth at least two (it has a non-root ancestor), regardless of
whether any ancestor actually had to be created. -/
theorem claim_C2_created_parents_structural
    {sid path content : String} {stn : Option String} {s : Store}
    {p : String} {b : Bool} {s2 : Store}
    (hv : validatePath path = .ok p)
    (hw : write sid path content stn s = .ok (b, s2)) :
    b = true ↔ 2 ≤ segDepth p := by
  obtain ⟨_, hb, _, _⟩ := write_ok_spec hv hw
  subst hb
  rw [decide_eq_true_eq, validated_ancestors_length hv]
  omega

theorem claim_C2_created_parents_structural_witness :
    2 ≤ segDepth "/a/b" :=
  (claim_C2_created_parents_structural
    (show validatePath "/a/b" = .ok "/a/b" by decide)
    (show write "s" "/a/b" "x" none [] =
        .ok (true,
          [⟨"s", "/", .dir, none⟩, ⟨"s", "/a", .dir, none⟩,
           ⟨"s", "/a/b", .file, some "x"⟩]) by decide)).mp rfl

/-- Claim C3: writing then reading the same path in the same namespace
returns exactly the written content (any content, the empty string
included), and reading a file node whose content column was never set
returns the empty string. -/
theorem claim_C3_write_read_roundtrip :
    (∀ (sid path content : String) (stn : Option String) (s : Store)
      (p : String) (b : Bool) (s2 : Store),
      validatePath path = .ok p →
      write sid path content stn s = .ok (b, s2) →
      read sid path stn s2 = .ok content) ∧
    (∀ (sid path : String) (stn : Option String) (s : Store) (p : String),
      validatePath path = .ok p →
      getNode (resolveNs sid stn) p (provisionNs (resolveNs sid stn) s) =
        some (.file, none) →
      read sid path stn s = .ok "") := by
  constructor
  · intro sid path content stn s p b s2 hv hw
    obtain ⟨_, _, _, hget⟩ := write_ok_spec hv hw
    have hg2 : getNode (resolveNs sid stn) p
        (provisionNs (resolveNs sid stn) s2) = some (.file, some content) :=
      getNode_insertDir_of_some _ _ hget
    unfold read
    simp only [hv, hg2]
    rfl
  · intro sid path stn s p hv hg
    unfold read
    simp only [hv, hg]
    rfl

theorem claim_C3_write_read_roundtrip_witness :
    read "s" "/a" none
        [⟨"s", "/", .dir, none⟩, ⟨"s", "/a", .file, some "hi"⟩] = .ok "hi" ∧
    read "s" "/f" none [⟨"s", "/f", .file, none⟩] = .ok "" :=
  ⟨claim_C3_write_read_roundtrip.1 "s" "/a" "hi" none [] "/a" false
      [⟨"s", "/", .dir, none⟩, ⟨"s", "/a", .file, some "hi"⟩]
      (by decide) (by decide),
   claim_C3_write_read_roundtrip.2 "s" "/f" none [⟨"s", "/f", .file, none⟩]
      "/f" (by decide) (by decide)⟩

/-- Claim C9: namespace noninterference. First part: for distinct
namespaces A and B, writing to /x in A and then to /x in B (the
statement is symmetric in A and B, so it covers both orders), reading
/x back from each namespace returns that namespace's own content.
Second part: every mutating storage operation run against one
namespace leaves every lookup in any other namespace unchanged. -/
theorem claim_C9_namespace_isolation :
    (∀ (A B cA cB : String) (s st1 st2 : Store) (b1 b2 : Bool),
      A ≠ B →
      write A "/x" cA none s = .ok (b1, st1) →
      write B "/x" cB none st1 = .ok (b2, st2) →
      read A "/x" none st2 = .ok cA ∧ read B "/x" none st2 = .ok cB) ∧
    (∀ (nsA nsB p q dest c : String) (s : Store), nsA ≠ nsB →
      getNode nsA q (upsertFile nsB p c s) = getNode nsA q s ∧
      getNode nsA q (appendFile nsB p c s) = getNode nsA q s ∧
      getNode nsA q (insertDir nsB p s) = getNode nsA q s ∧
      getNode nsA q (deleteNode nsB p s).2 = getNode nsA q s ∧
      getNode nsA q (moveNode nsB p dest s) = getNode nsA q s) := by
  constructor
  · intro A B cA cB s st1 st2 b1 b2 hAB h1 h2
    have hvx : validatePath "/x" = .ok "/x" := by decide
    obtain ⟨_, _, _, hg1⟩ := write_ok_spec hvx h1
    obtain ⟨_, _, hs2, hg2⟩ := write_ok_spec hvx h2
    rw [resolveNs_none] at hg1 hs2 hg2
    have hcross : getNode A "/x" st2 = some (.file, some cA) := by
      rw [hs2,
        getNode_upsertFile_other _ _ (fun hc => hAB hc.1),
        getNode_ensureParents_other _ (fun a _ hc => hAB hc.1)]
      show getNode A "/x" (insertDir B "/" st1) = _
      rw [getNode_insertDir_other _ (fun hc => hAB hc.1)]
      exact hg1
    have hA : getNode A "/x" (provisionNs A st2) = some (.file, some cA) :=
      getNode_insertDir_of_some _ _ hcross
    have hB : getNode B "/x" (provisionNs B st2) = some (.file, some cB) :=
      getNode_insertDir_of_some _ _ hg2
    constructor
    · unfold read
      simp only [hvx, resolveNs_none, hA]
      rfl
    · unfold read
      simp only [hvx, resolveNs_none, hB]
      rfl
  · intro nsA nsB p q dest c s hne
    exact ⟨getNode_upsertFile_other _ _ (fun hc => hne hc.1),
      getNode_appendFile_other _ _ (fun hc => hne hc.1),
      getNode_insertDir_other _ (fun hc => hne hc.1),
      getNode_deleteNode_other _ hne,
      getNode_moveNode_other _ hne⟩

theorem claim_C9_namespace_isolation_witness :
    (read "A" "/x" none
        [⟨"A", "/", .dir, none⟩, ⟨"A", "/x", .file, some "a1"⟩,
         ⟨"B", "/", .dir, none⟩, ⟨"B", "/x", .file, some "b1"⟩] = .ok "a1" ∧
     read "B" "/x" none
        [⟨"A", "/", .dir, none⟩, ⟨"A", "/x", .file, some "a1"⟩,
         ⟨"B", "/", .dir, none⟩, ⟨"B", "/x", .file, some "b1"⟩] = .ok "b1") ∧
    getNode "A" "/x" (deleteNode "B" "/x" [⟨"A", "/x", .file, some "a1"⟩]).2 =
      getNode "A" "/x" [⟨"A", "/x", .file, some "a1"⟩] :=
  ⟨claim_C9_namespace_isolation.1 "A" "B" "a1" "b1" []
      [⟨"A", "/", .dir, none⟩, ⟨"A", "/x", .file, some "a1"⟩]
      [⟨"A", "/", .dir, none⟩, ⟨"A", "/x", .file, some "a1"⟩,
       ⟨"B", "/", .dir, none⟩, ⟨"B", "/x", .file, some "b1"⟩]
      false false (by decide) (by decide) (by decide),
   (claim_C9_namespace_isolation.2 "A" "B" "/x" "/x" "/y" "c"
      [⟨"A", "/x", .file, some "a1"⟩] (by decide)).2.2.2.1⟩

/-- Claim C10: a file node at an ancestor of a valid non-root target
never blocks write or append (only the target itself is checked for a
directory conflict) and is left unchanged by them, and insertDir is a
no-op on any path that already holds a node of either kind — so no
operation converts a file into a directory in place. -/
theorem claim_C10_ancestor_file_untouched :
    (∀ (sid path content : String) (stn : Option String) (s : Store)
      (p a : String) (c0 : Option String),
      validatePath path = .ok p → p ≠ "/" →
      a ∈ ancestorPaths p →
      getNode (resolveNs sid stn) a s = some (.file, c0) →
      isDirOpt (getNode (resolveNs sid stn) p
        (provisionNs (resolveNs sid stn) s)) = false →
      ∃ b s2, write sid path content stn s = .ok (b, s2) ∧
        getNode (resolveNs sid stn) a s2 = some (.file, c0)) ∧
    (∀ (sid path content : String) (stn : Option String) (s : Store)
      (p a : String) (c0 : Option String),
      validatePath path = .ok p → p ≠ "/" →
      a ∈ ancestorPaths p →
      getNode (resolveNs sid stn) a s = some (.file, c0) →
      isDirOpt (getNode (resolveNs sid stn) p
        (provisionNs (resolveNs sid stn) s)) = false →
      ∃ s2, append sid path content stn s = .ok s2 ∧
        getNode (resolveNs sid stn) a s2 = some (.file, c0)) ∧
    (∀ (ns q : String) (s : Store) (v : NodeType × Option String),
      getNode ns q s = some v → insertDir ns q s = s) := by
  refine ⟨?_, ?_, ?_⟩
  · intro sid path content stn s p a c0 hv hp hmem hfile hnd
    have hap : a ≠ p :=
      fun h => validated_not_mem_ancestors hv hp (h ▸ hmem)
    have hw : write sid path content stn s =
        .ok (decide (1 < (ancestorPaths p).length),
          upsertFile (resolveNs sid stn) p content
            (ensureParents (resolveNs sid stn) p
              (provisionNs (resolveNs sid stn) s))) := by
      unfold write
      simp only [hv]
      rw [if_neg hp]
      cases hg : getNode (resolveNs sid stn) p
          (provisionNs (resolveNs sid stn) s) with
      | none => simp only [hg]
      | some v =>
        rcases v with ⟨t, c1⟩
        cases t with
        | dir => rw [hg] at hnd; simp [isDirOpt] at hnd
        | file => simp only [hg]
    refine ⟨_, _, hw, ?_⟩
    rw [getNode_upsertFile_other _ _ (fun hc => hap hc.2)]
    exact getNode_ensureParents_of_some
      (getNode_insertDir_of_some _ _ hfile)
  · intro sid path content stn s p a c0 hv hp hmem hfile hnd
    have hap : a ≠ p :=
      fun h => validated_not_mem_ancestors hv hp (h ▸ hmem)
    have hw : append sid path content stn s =
        .ok (appendFile (resolveNs sid stn) p content
            (ensureParents (resolveNs sid stn) p
              (provisionNs (resolveNs sid stn) s))) := by
      unfold append
      simp only [hv]
      rw [if_neg hp]
      cases hg : getNode (resolveNs sid stn) p
          (provisionNs (resolveNs sid stn) s) with
      | none => simp only [hg]
      | some v =>
        rcases v with ⟨t, c1⟩
        cases t with
        | dir => rw [hg] at hnd; simp [isDirOpt] at hnd
        | file => simp only [hg]
    refine ⟨_, hw, ?_⟩
    rw [getNode_appendFile_other _ _ (fun hc => hap hc.2)]
    exact getNode_ensureParents_of_some
      (getNode_insertDir_of_some _ _ hfile)
  · intro ns q s v h
    unfold insertDir
    rw [if_pos (by simp [h])]

theorem claim_C10_ancestor_file_untouched_witness :
    (∃ b s2, write "s" "/a/b" "x" none [⟨"s", "/a", .file, some "F"⟩] =
        .ok (b, s2) ∧ getNode "s" "/a" s2 = some (.file, some "F")) ∧
    (∃ s2, append "s" "/a/b" "x" none [⟨"s", "/a", .file, some "F"⟩] =
        .ok s2 ∧ getNode "s" "/a" s2 = some (.file, some "F")) ∧
    insertDir "s" "/a" [⟨"s", "/a", .file, some "F"⟩] =
      [⟨"s", "/a", .file, some "F"⟩] :=
  ⟨claim_C10_ancestor_file_untouched.1 "s" "/a/b" "x" none
      [⟨"s", "/a", .file, some "F"⟩] "/a/b" "/a" (some "F")
      (by decide) (by decide) (by decide) (by decide) (by decide),
   claim_C10_ancestor_file_untouched.2.1 "s" "/a/b" "x" none
      [⟨"s", "/a", .file, some "F"⟩] "/a/b" "/a" (some "F")
      (by decide) (by decide) (by decide) (by decide) (by decide),
   claim_C10_ancestor_file_untouched.2.2 "s" "/a"
      [⟨"s", "/a", .file, some "F"⟩] (.file, some "F") (by decide)⟩

/-- Claim C8 counterexample: the claim says glob performs no storage
mutation, but globbing from a never-provisioned namespace inserts the
namespace root directory: on the empty store the returned store is not
the input store. -/
theorem claim_C8_counterexample :
    glob "A" (fun _ => true) none [] =
      .ok ([], [⟨"A", "/", .dir, none⟩]) ∧
    ([⟨"A", "/", .dir, none⟩] : Store) ≠ ([] : Store) := by
  refine ⟨by decide, by decide⟩

/-- Claim C8 (amended): glob fails with EINVAL exactly when the number
of file rows of the namespace exceeds 10000 (exactly 10000 is still
globbed), and otherwise returns precisely the file paths of the
namespace matching the compiled pattern; the only storage change is
idempotent namespace provisioning (root creation on first use). -/
theorem claim_C8_glob_ceiling (sid : String) (isMatch : String → Bool)
    (stn : Option String) (s : Store) :
    ((∃ msg, glob sid isMatch stn s = .error (.fs "EINVAL" msg)) ↔
      10000 < (filesOf (resolveNs sid stn) s).length) ∧
    ((filesOf (resolveNs sid stn) s).length ≤ 10000 →
      ∃ res, glob sid isMatch stn s =
          .ok (res, provisionNs (resolveNs sid stn) s) ∧
        ∀ q, q ∈ res ↔ q ∈ filesOf (resolveNs sid stn) s ∧
          isMatch q = true) := by
  have hperm := allFilePaths_provision_perm (resolveNs sid stn) s
  have hlen := hperm.length_eq
  have hglob : glob sid isMatch stn s =
      (if 10000 < (allFilePaths (resolveNs sid stn)
          (provisionNs (resolveNs sid stn) s)).length then
        .error (.fs "EINVAL"
          ("Too many files (" ++
            toString (allFilePaths (resolveNs sid stn)
              (provisionNs (resolveNs sid stn) s)).length ++
            ") to glob — maximum is 10000. Use grep with path_filter to narrow your search."))
      else
        .ok ((allFilePaths (resolveNs sid stn)
            (provisionNs (resolveNs sid stn) s)).filter isMatch,
          provisionNs (resolveNs sid stn) s)) := rfl
  constructor
  · constructor
    · rintro ⟨msg, hmsg⟩
      rw [hglob] at hmsg
      by_cases hc : 10000 < (allFilePaths (resolveNs sid stn)
          (provisionNs (resolveNs sid stn) s)).length
      · rwa [hlen] at hc
      · rw [if_neg hc] at hmsg
        exact Except.noConfusion hmsg
    · intro hc
      rw [← hlen] at hc
      exact ⟨_, by rw [hglob, if_pos hc]⟩
  · intro hle
    have hc : ¬ 10000 < (allFilePaths (resolveNs sid stn)
        (provisionNs (resolveNs sid stn) s)).length := by
      rw [hlen]
      omega
    refine ⟨_, by rw [hglob, if_neg hc], ?_⟩
    intro q
    rw [List.mem_filter, hperm.mem_iff]

theorem claim_C8_glob_ceiling_witness :
    ∃ res, glob "A" (fun q => decide (q = "/f")) none
        [⟨"A", "/f", .file, some "x"⟩, ⟨"A", "/g", .file, some "y"⟩] =
        .ok (res, provisionNs (resolveNs "A" none)
          [⟨"A", "/f", .file, some "x"⟩, ⟨"A", "/g", .file, some "y"⟩]) ∧
      ∀ q, q ∈ res ↔ q ∈ filesOf (resolveNs "A" none)
          [⟨"A", "/f", .file, some "x"⟩, ⟨"A", "/g", .file, some "y"⟩] ∧
        decide (q = "/f") = true :=
  (claim_C8_glob_ceiling "A" (fun q => decide (q = "/f")) none
    [⟨"A", "/f", .file, some "x"⟩, ⟨"A", "/g", .file, some "y"⟩]).2
    (by decide)

end VfsModel
